import Mathlib

/-!
The TTL cache and the request handler of ical-proxy (`main.go`).

A shallow embedding of `Cache.Get`, `Cache.Set`, `fetchCalendar` and `handler`
of `main.go`, followed by the properties the specification states about them.

Conventions of the embedding:

* a Go `string` and a Go `[]byte` are sequences of bytes (`List UInt8`); the `nil`
  slice is the empty sequence;
* a Go `map[string]V` is an association list without duplicate keys (`AList`),
  `m[k]` is `AList.lookup` and `m[k] = v` is `AList.insert`;
* the package-level variables `config`, `cacheTTL` and `cache` are passed
  explicitly: `config` and `cacheTTL` as parameters, `cache` as a state that
  every operation receives and returns;
* the clock and the network are inputs: each operation that reads the clock
  receives the reading, and `http.Get` is a function given by the environment;
* the mutex and the log output are not part of the model (one request is handled
  at a time).
-/

namespace ICalProxy

/-! ## Data model -/

/-- A Go `string`: a sequence of bytes. -/
abbrev GoString := List UInt8

/-- A Go `[]byte`; `nil` is `[]`. -/
abbrev Bytes := List UInt8

/-- The bytes of a Go string literal whose characters are all ASCII. -/
def ascii (s : String) : GoString := s.data.map (fun ch => UInt8.ofNat ch.toNat)

/-- A Go `map[string]V`. -/
abbrev GoMap (V : Type) := AList (fun _ : GoString => V)

/-- A `time.Duration`: a number of nanoseconds (an `int64` in Go). -/
abbrev Duration := Int

/-- A `time.Time` obtained from `time.Now()`, represented by its monotonic clock
reading in nanoseconds (an `int64` in Go). -/
abbrev Time := Int

/-- The constant `time.Second`. -/
def Second : Duration := 1000000000

/-- The largest `time.Duration`, `1<<63 - 1`. -/
def maxDuration : Duration := 9223372036854775807

/-- The smallest `time.Duration`, `-1 << 63`. -/
def minDuration : Duration := -9223372036854775808

/-- Two's complement wrap-around of an integer to `int64`. -/
def wrapInt64 (x : Int) : Int :=
  (x + 9223372036854775808) % 18446744073709551616 - 9223372036854775808

/-- The difference of two monotonic clock readings as `time.Time.Sub` computes it:
the `int64` difference, replaced by the largest or the smallest duration when it
overflows. -/
def subMono (t u : Time) : Duration :=
  let d := wrapInt64 (t - u)
  if d < 0 ∧ t > u then maxDuration
  else if d > 0 ∧ t < u then minDuration
  else d

/-- The call `time.Since(t)` when the clock reads `now`. -/
def Since (now t : Time) : Duration := subMono now t

/-- The struct `Config`. -/
structure Config where
  Mappings : GoMap GoString
  CacheTTL : GoString
deriving DecidableEq

/-- The struct `CacheEntry`. -/
structure CacheEntry where
  Data : Bytes
  Timestamp : Time
deriving DecidableEq

/-- The struct `Cache` (without its mutex). -/
structure Cache where
  entries : GoMap CacheEntry
deriving DecidableEq

/-- The initial value of the package-level variable `cache`:
`Cache{entries: make(map[string]CacheEntry)}`. -/
def cache : Cache := ⟨∅⟩

/-! ## The cache operations -/

/-- The method `(c *Cache) Get(alias)` when the clock reads `now` and the variable
`cacheTTL` holds `ttl`. It returns the two results of the Go method and the
cache after the call. -/
def Cache.Get (c : Cache) (ttl : Duration) (now : Time) (aliasName : GoString) :
    (Bytes × Bool) × Cache :=
  match c.entries.lookup aliasName with
  | some entry =>
    if Since now entry.Timestamp < ttl then ((entry.Data, true), c)
    else (([], false), c)
  | none => (([], false), c)

/-- The method `(c *Cache) Set(alias, data)` when the clock reads `now`; it returns the
cache after the call. -/
def Cache.Set (c : Cache) (now : Time) (aliasName : GoString) (data : Bytes) : Cache :=
  ⟨c.entries.insert aliasName ⟨data, now⟩⟩

/-! ## The upstream fetch -/

/-- What `http.Get(url)` and the following `io.ReadAll(resp.Body)` produce. -/
inductive HttpResult where
  /-- The call `http.Get` returns a non-nil error. -/
  | failed
  /-- The call `http.Get` returns a response with this status code; `body` is what
  `io.ReadAll(resp.Body)` yields, `none` when it returns an error. -/
  | response (StatusCode : Nat) (body : Option Bytes)
deriving DecidableEq

/-- The four errors `fetchCalendar` returns. -/
inductive FetchError where
  /-- The error `errors.New("empty URL")`. -/
  | emptyURL
  /-- The error `"failed to fetch calendar: %w"`. -/
  | transport
  /-- The error `"error fetching calendar: %s"` with the upstream status. -/
  | status (StatusCode : Nat)
  /-- The error `"failed to read response body: %w"`. -/
  | read
deriving DecidableEq

/-- The function `fetchCalendar(url)`, over the behaviour `httpGet` of the network. -/
def fetchCalendar (httpGet : GoString → HttpResult) (url : GoString) :
    Except FetchError Bytes :=
  if url = [] then .error .emptyURL
  else
    match httpGet url with
    | .failed => .error .transport
    | .response StatusCode body =>
      if StatusCode ≠ 200 then .error (.status StatusCode)
      else
        match body with
        | none => .error .read
        | some data => .ok data

/-! ## The request handler -/

/-- The slice expression `s[lo:]` of a Go string: it panics (`none`) when `lo` exceeds
the length of `s`. -/
def sliceFrom (s : GoString) (lo : Nat) : Option GoString :=
  if lo ≤ s.length then some (s.drop lo) else none

/-- What a run of `handler` does to its `http.ResponseWriter`. -/
inductive Response where
  /-- The call `http.Error(w, msg, code)`: the status `code` and the message `msg`, which
  `net/http` sends as a `text/plain` body ended by a line feed. -/
  | Error (msg : GoString) (code : Nat)
  /-- The calls `w.Header().Set("Content-Type", contentType)` and `w.Write(data)`. -/
  | Write (contentType : GoString) (data : Bytes)
deriving DecidableEq

/-- The HTTP status of a response: the code given to `http.Error`, and
`http.StatusOK` for a `Write` that no `WriteHeader` precedes. -/
def Response.status : Response → Nat
  | .Error _ code => code
  | .Write _ _ => 200

/-- What one run of `handler` observes of the world: the network, the clock reading
inside `Cache.Get` and the clock reading inside `Cache.Set`. -/
structure Env where
  httpGet : GoString → HttpResult
  nowGet : Time
  nowSet : Time

/-- The effects of one run of `handler`: the response, the cache after the run, and the
arguments of its calls of `fetchCalendar`, in order. -/
structure Outcome where
  resp : Response
  cache : Cache
  fetched : List GoString
deriving DecidableEq

/-- The function `handler(w, r)` for a request with `r.URL.Path = Path`, started with the
cache `c`; `none` is a run-time panic. -/
def handler (config : Config) (ttl : Duration) (env : Env) (Path : GoString) (c : Cache) :
    Option Outcome :=
  match sliceFrom Path 1 with
  | none => none
  | some aliasName =>
    if aliasName = [] then
      some ⟨.Error (ascii "Missing alias") 400, c, []⟩
    else
      match config.Mappings.lookup aliasName with
      | none => some ⟨.Error (ascii "Not found") 404, c, []⟩
      | some url =>
        match c.Get ttl env.nowGet aliasName with
        | ((data, true), c₁) => some ⟨.Write (ascii "text/calendar") data, c₁, []⟩
        | ((_, false), c₁) =>
          match fetchCalendar env.httpGet url with
          | .error _ =>
            some ⟨.Error (ascii "Failed to fetch calendar") 500, c₁, [url]⟩
          | .ok data =>
            some ⟨.Write (ascii "text/calendar") data, c₁.Set env.nowSet aliasName data, [url]⟩

/-- One request handled by the server: its path and what its handler run observes. -/
structure Request where
  Path : GoString
  env : Env

/-- The cache after the server has handled one request; the server recovers from a panic
of the handler, which leaves the cache as it was. -/
def serve (config : Config) (ttl : Duration) (c : Cache) (r : Request) : Cache :=
  match handler config ttl r.env r.Path c with
  | none => c
  | some o => o.cache

/-- The cache after the server has handled the requests `rs` one after the other. -/
def serveAll (config : Config) (ttl : Duration) (c : Cache) (rs : List Request) : Cache :=
  rs.foldl (serve config ttl) c

/-- The cache after a sequence of `Set` calls, each with its clock reading. -/
def setAll (c : Cache) (ops : List (GoString × Bytes × Time)) : Cache :=
  ops.foldl (fun c op => c.Set op.2.2 op.1 op.2.1) c

/-- The most recent call in `ops` that sets `aliasName`, if there is one. -/
def lastSet (aliasName : GoString) (ops : List (GoString × Bytes × Time)) :
    Option (GoString × Bytes × Time) :=
  ops.reverse.find? (fun op => op.1 = aliasName)

/-! ## Example data -/

/-- The alias `"team"` of the scenario of the specification. -/
def team : GoString := ascii "team"

/-- The upstream URL of the scenario of the specification. -/
def teamURL : GoString := ascii "http://upstream/team.ics"

/-- The registry `{"team": "http://upstream/team.ics"}` with `cache_ttl: 1s`. -/
def teamConfig : Config := ⟨(∅ : GoMap GoString).insert team teamURL, ascii "1s"⟩

/-- A network on which every `http.Get` yields status 200 and the body `body`. -/
def upstreamOK (body : Bytes) : GoString → HttpResult := fun _ => .response 200 (some body)

/-- A network on which every `http.Get` yields the status `StatusCode` and a readable body. -/
def upstreamStatus (StatusCode : Nat) : GoString → HttpResult :=
  fun _ => .response StatusCode (some [])

/-- A cache that holds the bytes `data` for `"team"`, stored when the clock read `0`. -/
def teamCache (data : Bytes) : Cache := cache.Set 0 team data

/-- A registry whose only key is the empty string: `{"": "http://upstream/team.ics"}`. -/
def emptyAliasConfig : Config := ⟨(∅ : GoMap GoString).insert [] teamURL, ascii "1s"⟩

/-- The alias `"unknown"`, which `teamConfig` does not map. -/
def unknown : GoString := ascii "unknown"

/-- Four requests: `/team` answered by the upstream with `[66, 49]`, then `/unknown`, the
empty path and `/`. -/
def exampleRequests : List Request :=
  [⟨47 :: team, ⟨upstreamOK [66, 49], 0, 0⟩⟩,
   ⟨47 :: unknown, ⟨upstreamOK [66, 50], 1, 1⟩⟩,
   ⟨[], ⟨upstreamOK [66, 51], 2, 2⟩⟩,
   ⟨[47], ⟨upstreamOK [66, 52], 3, 3⟩⟩]

/-! ## Auxiliary facts -/

theorem wrapInt64_of_inRange (x : Int) (hlo : -9223372036854775808 ≤ x)
    (hhi : x ≤ 9223372036854775807) : wrapInt64 x = x := by
  unfold wrapInt64
  rw [Int.emod_eq_of_lt (by omega) (by omega)]
  omega

theorem subMono_of_inRange (now t : Int) (hlo : -9223372036854775808 ≤ now - t)
    (hhi : now - t ≤ 9223372036854775807) : subMono now t = now - t := by
  have hw : wrapInt64 (now - t) = now - t := wrapInt64_of_inRange _ hlo hhi
  have h1 : ¬ (now - t < 0 ∧ now > t) := by omega
  have h2 : ¬ (now - t > 0 ∧ now < t) := by omega
  unfold subMono
  simp only [hw]
  rw [if_neg h1, if_neg h2]

/-- Within the range of `time.Duration` the saturating difference is the difference. -/
theorem Since_eq_sub (now t : Time) (hlo : minDuration ≤ now - t)
    (hhi : now - t ≤ maxDuration) : Since now t = now - t :=
  subMono_of_inRange now t hlo hhi

theorem Get_cache (c : Cache) (ttl : Duration) (now : Time) (aliasName : GoString) :
    (c.Get ttl now aliasName).2 = c := by
  unfold Cache.Get
  split
  · split <;> rfl
  · rfl

theorem Get_of_fresh (c : Cache) (ttl : Duration) (now : Time) (aliasName : GoString)
    (entry : CacheEntry) (hfound : c.entries.lookup aliasName = some entry)
    (hfresh : Since now entry.Timestamp < ttl) :
    c.Get ttl now aliasName = ((entry.Data, true), c) := by
  simp [Cache.Get, hfound, hfresh]

theorem Get_of_expired (c : Cache) (ttl : Duration) (now : Time) (aliasName : GoString)
    (entry : CacheEntry) (hfound : c.entries.lookup aliasName = some entry)
    (hold : ttl ≤ Since now entry.Timestamp) :
    c.Get ttl now aliasName = (([], false), c) := by
  simp [Cache.Get, hfound, not_lt.mpr hold]

theorem Get_of_absent (c : Cache) (ttl : Duration) (now : Time) (aliasName : GoString)
    (habsent : c.entries.lookup aliasName = none) :
    c.Get ttl now aliasName = (([], false), c) := by
  simp [Cache.Get, habsent]

theorem lookup_Set_self (c : Cache) (now : Time) (aliasName : GoString) (data : Bytes) :
    (c.Set now aliasName data).entries.lookup aliasName = some ⟨data, now⟩ := by
  simp [Cache.Set]

theorem lookup_Set_other (c : Cache) (now : Time) (aliasName other : GoString) (data : Bytes)
    (hne : other ≠ aliasName) :
    (c.Set now aliasName data).entries.lookup other = c.entries.lookup other := by
  simp [Cache.Set, AList.lookup_insert_ne hne]

theorem mem_keys_Set (c : Cache) (now : Time) (aliasName other : GoString) (data : Bytes) :
    other ∈ (c.Set now aliasName data).entries.keys ↔
      other = aliasName ∨ other ∈ c.entries.keys := by
  show other ∈ (c.entries.insert aliasName ⟨data, now⟩).keys ↔ _
  rw [← AList.mem_keys, AList.mem_insert, AList.mem_keys]

theorem setAll_append (c : Cache) (ops : List (GoString × Bytes × Time))
    (op : GoString × Bytes × Time) :
    setAll c (ops ++ [op]) = (setAll c ops).Set op.2.2 op.1 op.2.1 := by
  simp [setAll, List.foldl_append]

theorem lastSet_append (aliasName : GoString) (ops : List (GoString × Bytes × Time))
    (op : GoString × Bytes × Time) :
    lastSet aliasName (ops ++ [op]) =
      if op.1 = aliasName then some op else lastSet aliasName ops := by
  simp only [lastSet, List.reverse_append, List.reverse_cons, List.reverse_nil, List.nil_append,
    List.singleton_append, List.find?_cons]
  by_cases h : op.1 = aliasName <;> simp [h]

theorem mem_keys_setAll (c : Cache) (ops : List (GoString × Bytes × Time)) (a : GoString) :
    a ∈ (setAll c ops).entries.keys ↔ a ∈ ops.map (fun op => op.1) ∨ a ∈ c.entries.keys := by
  induction ops using List.reverseRecOn with
  | nil => simp [setAll]
  | append_singleton ops op ih =>
    rw [setAll_append, mem_keys_Set, ih]
    simp only [List.map_append, List.map_cons, List.map_nil, List.mem_append,
      List.mem_singleton]
    tauto

theorem lookup_setAll (c : Cache) (ops : List (GoString × Bytes × Time)) (a : GoString) :
    (setAll c ops).entries.lookup a =
      match lastSet a ops with
      | some op => some ⟨op.2.1, op.2.2⟩
      | none => c.entries.lookup a := by
  induction ops using List.reverseRecOn with
  | nil => simp [setAll, lastSet]
  | append_singleton ops op ih =>
    rw [setAll_append, lastSet_append]
    by_cases h : op.1 = a
    · subst h
      simp [lookup_Set_self]
    · rw [lookup_Set_other _ _ _ _ _ (Ne.symm h), ih]
      simp [h]

theorem lastSet_isSome (a : GoString) (ops : List (GoString × Bytes × Time))
    (hmem : a ∈ ops.map (fun op => op.1)) :
    ∃ op, lastSet a ops = some op ∧ op ∈ ops ∧ op.1 = a := by
  obtain ⟨op₀, hop₀, rfl⟩ := List.mem_map.mp hmem
  cases hfind : lastSet op₀.1 ops with
  | none =>
    unfold lastSet at hfind
    rw [List.find?_eq_none] at hfind
    have := hfind op₀ (List.mem_reverse.mpr hop₀)
    simp at this
  | some op =>
    refine ⟨op, rfl, ?_, ?_⟩
    · unfold lastSet at hfind
      exact List.mem_reverse.mp (List.mem_of_find?_eq_some hfind)
    · unfold lastSet at hfind
      simpa using List.find?_some hfind

theorem countP_eq_one_of_mem (l : List GoString) (a : GoString) (hnodup : l.Nodup)
    (hmem : a ∈ l) : l.countP (fun k => decide (k = a)) = 1 := by
  induction l with
  | nil => simp at hmem
  | cons k l ih =>
    rw [List.nodup_cons] at hnodup
    by_cases hk : k = a
    · subst hk
      have hzero : l.countP (fun x => decide (x = k)) = 0 := by
        rw [List.countP_eq_zero]
        intro x hx
        have : x ≠ k := fun h => hnodup.1 (h ▸ hx)
        simpa using this
      simp [List.countP_cons, hzero]
    · have hmem' : a ∈ l := by
        rcases List.mem_cons.mp hmem with h | h
        · exact absurd h.symm hk
        · exact h
      simp [List.countP_cons, hk, ih hnodup.2 hmem']

theorem sliceFrom_one_cons (b : UInt8) (rest : GoString) : sliceFrom (b :: rest) 1 = some rest := by
  simp [sliceFrom]

theorem fetchCalendar_error_iff (httpGet : GoString → HttpResult) (url : GoString) :
    (∃ err, fetchCalendar httpGet url = .error err) ↔
      (url = [] ∨ httpGet url = .failed ∨
        (∃ StatusCode body, httpGet url = .response StatusCode body ∧ StatusCode ≠ 200) ∨
        httpGet url = .response 200 none) := by
  unfold fetchCalendar
  by_cases hurl : url = []
  · simp [hurl]
  · simp only [hurl, if_false, false_or]
    cases hres : httpGet url with
    | failed => simp
    | response StatusCode body =>
      by_cases hcode : StatusCode = 200
      · subst hcode
        cases body <;> simp
      · simp [hcode]

/-- The run of `handler` on a path whose alias is not empty and is a key of the registry,
when the cache lookup misses. -/
theorem handler_of_miss (config : Config) (ttl : Duration) (env : Env) (b : UInt8)
    (aliasName url : GoString) (c : Cache) (hne : aliasName ≠ [])
    (hreg : config.Mappings.lookup aliasName = some url)
    (hmiss : c.Get ttl env.nowGet aliasName = (([], false), c)) :
    handler config ttl env (b :: aliasName) c =
      match fetchCalendar env.httpGet url with
      | .error _ => some ⟨.Error (ascii "Failed to fetch calendar") 500, c, [url]⟩
      | .ok data =>
        some ⟨.Write (ascii "text/calendar") data, c.Set env.nowSet aliasName data, [url]⟩ := by
  simp only [handler, sliceFrom_one_cons, hne, if_false, hreg, hmiss]

theorem Get_of_miss (c : Cache) (ttl : Duration) (now : Time) (aliasName : GoString)
    (hmiss : c.entries.lookup aliasName = none ∨
      ∃ entry, c.entries.lookup aliasName = some entry ∧ ttl ≤ Since now entry.Timestamp) :
    c.Get ttl now aliasName = (([], false), c) := by
  rcases hmiss with habsent | ⟨entry, hfound, hold⟩
  · exact Get_of_absent c ttl now aliasName habsent
  · exact Get_of_expired c ttl now aliasName entry hfound hold

/-- The run of `handler` on a path whose alias is not empty and is a key of the registry,
when the cache holds a fresh entry for it. -/
theorem handler_of_hit (config : Config) (ttl : Duration) (env : Env) (b : UInt8)
    (aliasName url : GoString) (c : Cache) (entry : CacheEntry) (hne : aliasName ≠ [])
    (hreg : config.Mappings.lookup aliasName = some url)
    (hfound : c.entries.lookup aliasName = some entry)
    (hfresh : Since env.nowGet entry.Timestamp < ttl) :
    handler config ttl env (b :: aliasName) c =
      some ⟨.Write (ascii "text/calendar") entry.Data, c, []⟩ := by
  simp only [handler, sliceFrom_one_cons, hne, if_false, hreg,
    Get_of_fresh c ttl env.nowGet aliasName entry hfound hfresh]

theorem lookup_of_mem_keys {V : Type} (m : GoMap V) (a : GoString) (hmem : a ∈ m.keys) :
    ∃ v, m.lookup a = some v := by
  cases h : m.lookup a with
  | none => exact absurd (AList.mem_keys.mpr hmem) (AList.lookup_eq_none.mp h)
  | some v => exact ⟨v, rfl⟩

theorem mem_keys_of_lookup {V : Type} (m : GoMap V) (a : GoString) (v : V)
    (h : m.lookup a = some v) : a ∈ m.keys := by
  rw [← AList.mem_keys, ← AList.lookup_isSome, h]
  rfl

theorem fetchCalendar_upstreamOK (body : Bytes) (url : GoString) (hurl : url ≠ []) :
    fetchCalendar (upstreamOK body) url = .ok body := by
  simp [fetchCalendar, upstreamOK, hurl]

theorem ascii_slash_team : ascii "/team" = 47 :: team := by decide

theorem ascii_slash : ascii "/" = [47] := by decide

/-- The three ways a run of `handler` on a non-empty path ends without a fetch, and the two
ways it ends after one. -/
theorem handler_cons_cases (config : Config) (ttl : Duration) (env : Env) (b : UInt8)
    (aliasName : GoString) (c : Cache) :
    (aliasName = [] ∧
      handler config ttl env (b :: aliasName) c =
        some ⟨.Error (ascii "Missing alias") 400, c, []⟩) ∨
    (aliasName ≠ [] ∧ config.Mappings.lookup aliasName = none ∧
      handler config ttl env (b :: aliasName) c =
        some ⟨.Error (ascii "Not found") 404, c, []⟩) ∨
    (∃ url data, aliasName ≠ [] ∧ config.Mappings.lookup aliasName = some url ∧
      handler config ttl env (b :: aliasName) c =
        some ⟨.Write (ascii "text/calendar") data, c, []⟩) ∨
    (∃ url, aliasName ≠ [] ∧ config.Mappings.lookup aliasName = some url ∧
      (∃ err, fetchCalendar env.httpGet url = .error err) ∧
      handler config ttl env (b :: aliasName) c =
        some ⟨.Error (ascii "Failed to fetch calendar") 500, c, [url]⟩) ∨
    (∃ url data, aliasName ≠ [] ∧ config.Mappings.lookup aliasName = some url ∧
      fetchCalendar env.httpGet url = .ok data ∧
      handler config ttl env (b :: aliasName) c =
        some ⟨.Write (ascii "text/calendar") data, c.Set env.nowSet aliasName data, [url]⟩) := by
  by_cases hne : aliasName = []
  · left
    exact ⟨hne, by simp [handler, sliceFrom_one_cons, hne]⟩
  · right
    cases hreg : config.Mappings.lookup aliasName with
    | none =>
      left
      exact ⟨hne, rfl, by simp [handler, sliceFrom_one_cons, hne, hreg]⟩
    | some url =>
      right
      have hc := Get_cache c ttl env.nowGet aliasName
      rcases hget : c.Get ttl env.nowGet aliasName with ⟨⟨data, found⟩, c₁⟩
      rw [hget] at hc
      simp only at hc
      subst hc
      cases found with
      | true =>
        left
        exact ⟨url, data, hne, rfl, by simp [handler, sliceFrom_one_cons, hne, hreg, hget]⟩
      | false =>
        right
        cases hfetch : fetchCalendar env.httpGet url with
        | error err =>
          left
          exact ⟨url, hne, rfl, ⟨err, hfetch⟩,
            by simp [handler, sliceFrom_one_cons, hne, hreg, hget, hfetch]⟩
        | ok fetched =>
          right
          exact ⟨url, fetched, hne, rfl, hfetch,
            by simp [handler, sliceFrom_one_cons, hne, hreg, hget, hfetch]⟩

/-- Handling one request leaves the cache as it was or stores, under a non-empty alias that
the registry maps, the bytes of a successful fetch of the registered URL. -/
theorem serve_cases (config : Config) (ttl : Duration) (c : Cache) (r : Request) :
    serve config ttl c r = c ∨
    ∃ a url data, sliceFrom r.Path 1 = some a ∧ a ≠ [] ∧
      config.Mappings.lookup a = some url ∧
      fetchCalendar r.env.httpGet url = .ok data ∧
      serve config ttl c r = c.Set r.env.nowSet a data := by
  obtain ⟨Path, env⟩ := r
  cases Path with
  | nil => left; simp [serve, handler, sliceFrom]
  | cons b aliasName =>
    rcases handler_cons_cases config ttl env b aliasName c with
      ⟨_, h⟩ | ⟨_, _, h⟩ | ⟨_, _, _, _, h⟩ | ⟨_, _, _, _, h⟩ | ⟨url, data, hne, hreg, hfetch, h⟩
    · left; simp [serve, h]
    · left; simp [serve, h]
    · left; simp [serve, h]
    · left; simp [serve, h]
    · right
      exact ⟨aliasName, url, data, sliceFrom_one_cons b aliasName, hne, hreg, hfetch,
        by simp [serve, h]⟩

theorem serveAll_append (config : Config) (ttl : Duration) (c : Cache) (rs : List Request)
    (r : Request) :
    serveAll config ttl c (rs ++ [r]) = serve config ttl (serveAll config ttl c rs) r := by
  simp [serveAll, List.foldl_append]

/-- Every entry of the cache after a run from the empty cache was stored by one of the
requests, under its non-empty registered alias, with the bytes of its successful fetch. -/
theorem serveAll_entries (config : Config) (ttl : Duration) (rs : List Request) (a : GoString)
    (entry : CacheEntry)
    (hfound : (serveAll config ttl cache rs).entries.lookup a = some entry) :
    a ≠ [] ∧ ∃ url, config.Mappings.lookup a = some url ∧
      ∃ r ∈ rs, sliceFrom r.Path 1 = some a ∧
        fetchCalendar r.env.httpGet url = .ok entry.Data ∧ entry.Timestamp = r.env.nowSet := by
  induction rs using List.reverseRecOn generalizing a entry with
  | nil => simp [serveAll, cache] at hfound
  | append_singleton rs r ih =>
    rw [serveAll_append] at hfound
    have hweaken : ∀ (a : GoString) (entry : CacheEntry),
        (a ≠ [] ∧ ∃ url, config.Mappings.lookup a = some url ∧
          ∃ r' ∈ rs, sliceFrom r'.Path 1 = some a ∧
            fetchCalendar r'.env.httpGet url = .ok entry.Data ∧
            entry.Timestamp = r'.env.nowSet) →
        (a ≠ [] ∧ ∃ url, config.Mappings.lookup a = some url ∧
          ∃ r' ∈ rs ++ [r], sliceFrom r'.Path 1 = some a ∧
            fetchCalendar r'.env.httpGet url = .ok entry.Data ∧
            entry.Timestamp = r'.env.nowSet) := by
      rintro a entry ⟨hne, url, hreg, r', hr', hrest⟩
      exact ⟨hne, url, hreg, r', List.mem_append_left _ hr', hrest⟩
    rcases serve_cases config ttl (serveAll config ttl cache rs) r with
      hsame | ⟨a', url, data, hslice, hne, hreg, hfetch, hset⟩
    · rw [hsame] at hfound
      exact hweaken a entry (ih a entry hfound)
    · rw [hset] at hfound
      by_cases ha : a = a'
      · subst ha
        rw [lookup_Set_self] at hfound
        cases hfound
        exact ⟨hne, url, hreg, r, by simp, hslice, hfetch, rfl⟩
      · rw [lookup_Set_other _ _ _ _ _ ha] at hfound
        exact hweaken a entry (ih a entry hfound)

/-! ## The cache -/

/-- C1: `Cache.Get(alias)` returns `(entry.Data, true)` exactly when an entry for the alias is
present and its age `time.Since(entry.Timestamp)` is below the TTL; in every other case,
an age equal to the TTL included, it returns `(nil, false)`. The age is the difference
`now - entry.Timestamp` whenever that difference is in the range of `time.Duration`. -/
theorem Cache_Get_true_iff_fresh (c : Cache) (ttl : Duration) (now : Time)
    (aliasName : GoString) :
    (∀ data, (c.Get ttl now aliasName).1 = (data, true) ↔
      ∃ entry, c.entries.lookup aliasName = some entry ∧
        Since now entry.Timestamp < ttl ∧ data = entry.Data) ∧
    ((c.Get ttl now aliasName).1 = ([], false) ↔
      ¬ ∃ entry, c.entries.lookup aliasName = some entry ∧
        Since now entry.Timestamp < ttl) ∧
    (∀ entry, c.entries.lookup aliasName = some entry →
      Since now entry.Timestamp = ttl → (c.Get ttl now aliasName).1 = ([], false)) ∧
    (∀ entry, c.entries.lookup aliasName = some entry →
      minDuration ≤ now - entry.Timestamp → now - entry.Timestamp ≤ maxDuration →
      ((c.Get ttl now aliasName).1 = (entry.Data, true) ↔ now - entry.Timestamp < ttl)) := by
  refine ⟨?_, ?_, ?_, ?_⟩
  · intro data
    cases hfound : c.entries.lookup aliasName with
    | none => simp [Cache.Get, hfound]
    | some entry =>
      by_cases hfresh : Since now entry.Timestamp < ttl
      · simp only [Cache.Get, hfound, hfresh, if_true, Prod.mk.injEq, and_true, Option.some.injEq]
        constructor
        · intro h
          exact ⟨entry, rfl, hfresh, h.symm⟩
        · rintro ⟨entry', rfl, _, rfl⟩
          rfl
      · simp only [Cache.Get, hfound, hfresh, if_false, Prod.mk.injEq, Option.some.injEq]
        constructor
        · intro h
          exact absurd h.2 (by decide)
        · rintro ⟨entry', rfl, h, _⟩
          exact absurd h hfresh
  · cases hfound : c.entries.lookup aliasName with
    | none => simp [Cache.Get, hfound]
    | some entry =>
      by_cases hfresh : Since now entry.Timestamp < ttl
      · simp [Cache.Get, hfound, hfresh]
      · simp [Cache.Get, hfound, hfresh]
  · intro entry hfound hage
    rw [Get_of_expired c ttl now aliasName entry hfound (le_of_eq hage.symm)]
  · intro entry hfound hlo hhi
    rw [← Since_eq_sub now entry.Timestamp hlo hhi]
    by_cases hfresh : Since now entry.Timestamp < ttl
    · simp [Get_of_fresh c ttl now aliasName entry hfound hfresh, hfresh]
    · simp [Get_of_expired c ttl now aliasName entry hfound (not_lt.mp hfresh), hfresh]

/-- An entry for `"team"` whose age equals the TTL of one second is not returned; at the age
of half a second it is returned exactly because `500000000 - 0 < Second`. -/
theorem Cache_Get_true_iff_fresh_witness :
    (teamCache [1, 2]).entries.lookup team = some ⟨[1, 2], 0⟩ ∧
    Since 1000000000 0 = Second ∧
    ((teamCache [1, 2]).Get Second 1000000000 team).1 = ([], false) ∧
    minDuration ≤ 500000000 - 0 ∧ 500000000 - 0 ≤ maxDuration ∧
    (((teamCache [1, 2]).Get Second 500000000 team).1 = ([1, 2], true) ↔
      (500000000 : Int) - 0 < Second) :=
  ⟨by decide, by decide,
    (Cache_Get_true_iff_fresh (teamCache [1, 2]) Second 1000000000 team).2.2.1
      ⟨[1, 2], 0⟩ (by decide) (by decide),
    by decide, by decide,
    (Cache_Get_true_iff_fresh (teamCache [1, 2]) Second 500000000 team).2.2.2
      ⟨[1, 2], 0⟩ (by decide) (by decide) (by decide)⟩

/-- C7: `Cache.Set(alias, data)` stores `data` with the current clock reading under the alias,
whatever was there, and leaves the entry of every other alias as it was; after a sequence
of `Set` calls the keys of the cache are the aliases set and the keys it had, each alias
set occurs exactly once among the keys, and it maps to the bytes and the clock reading of
the most recent `Set` for it. -/
theorem Cache_Set_overwrites (c : Cache) :
    (∀ (now : Time) (aliasName : GoString) (data : Bytes),
      (c.Set now aliasName data).entries.lookup aliasName = some ⟨data, now⟩ ∧
      ∀ other, other ≠ aliasName →
        (c.Set now aliasName data).entries.lookup other = c.entries.lookup other) ∧
    (∀ (ops : List (GoString × Bytes × Time)) (a : GoString),
      (a ∈ (setAll c ops).entries.keys ↔ a ∈ ops.map (fun op => op.1) ∨ a ∈ c.entries.keys) ∧
      (a ∈ ops.map (fun op => op.1) →
        (setAll c ops).entries.keys.countP (fun k => decide (k = a)) = 1 ∧
        ∃ op, lastSet a ops = some op ∧ op ∈ ops ∧ op.1 = a ∧
          (setAll c ops).entries.lookup a = some ⟨op.2.1, op.2.2⟩)) := by
  refine ⟨?_, ?_⟩
  · intro now aliasName data
    exact ⟨lookup_Set_self c now aliasName data,
      fun other hne => lookup_Set_other c now aliasName other data hne⟩
  · intro ops a
    refine ⟨mem_keys_setAll c ops a, ?_⟩
    intro hmem
    constructor
    · exact countP_eq_one_of_mem _ a (setAll c ops).entries.keys_nodup
        ((mem_keys_setAll c ops a).mpr (Or.inl hmem))
    · obtain ⟨op, hlast, hop, hkey⟩ := lastSet_isSome a ops hmem
      refine ⟨op, hlast, hop, hkey, ?_⟩
      rw [lookup_setAll, hlast]

/-- Two `Set` calls for `"team"` leave one entry, with the bytes of the second call, and a
`Set` for `"team"` leaves the lookup of `"unknown"` as it was. -/
theorem Cache_Set_overwrites_witness :
    unknown ≠ team ∧
    (cache.Set 0 team [1]).entries.lookup unknown = cache.entries.lookup unknown ∧
    team ∈ [(team, [1], (0 : Time)), (team, [2], (5 : Time))].map (fun op => op.1) ∧
    (setAll cache [(team, [1], 0), (team, [2], 5)]).entries.keys.countP
      (fun k => decide (k = team)) = 1 ∧
    ∃ op, lastSet team [(team, [1], 0), (team, [2], 5)] = some op ∧
      op ∈ [(team, [1], (0 : Time)), (team, [2], (5 : Time))] ∧ op.1 = team ∧
      (setAll cache [(team, [1], 0), (team, [2], 5)]).entries.lookup team =
        some ⟨op.2.1, op.2.2⟩ :=
  ⟨by decide, ((Cache_Set_overwrites cache).1 0 team [1]).2 unknown (by decide), by decide,
    ((Cache_Set_overwrites cache).2 [(team, [1], 0), (team, [2], 5)] team).2 (by decide)⟩

/-- C8: `Cache.Get` leaves the cache as it was; an entry that is present and expired is
reported as not found and is still in the mapping, with the same data and timestamp. -/
theorem Cache_Get_leaves_cache (c : Cache) (ttl : Duration) (now : Time)
    (aliasName : GoString) :
    (c.Get ttl now aliasName).2 = c ∧
    (∀ entry, c.entries.lookup aliasName = some entry → ttl ≤ Since now entry.Timestamp →
      (c.Get ttl now aliasName).1 = ([], false) ∧
      (c.Get ttl now aliasName).2.entries.lookup aliasName = some entry) := by
  refine ⟨Get_cache c ttl now aliasName, ?_⟩
  intro entry hfound hold
  rw [Get_of_expired c ttl now aliasName entry hfound hold]
  exact ⟨rfl, hfound⟩

/-- An entry for `"team"` of age two seconds under a TTL of one second: not found, not
deleted. -/
theorem Cache_Get_leaves_cache_witness :
    (teamCache [7]).entries.lookup team = some ⟨[7], 0⟩ ∧
    Second ≤ Since 2000000000 0 ∧
    ((teamCache [7]).Get Second 2000000000 team).1 = ([], false) ∧
    ((teamCache [7]).Get Second 2000000000 team).2.entries.lookup team = some ⟨[7], 0⟩ :=
  ⟨by decide, by decide,
    (Cache_Get_leaves_cache (teamCache [7]) Second 2000000000 team).2
      ⟨[7], 0⟩ (by decide) (by decide)⟩

/-! ## The handler -/

/-- C2: when the requested alias is not empty, is a key of the registry, and the cache holds
an entry for it whose age is below the TTL, the handler writes the cached bytes with
`Content-Type: text/calendar` and status 200, does not call `fetchCalendar`, and leaves the
cache as it was. -/
theorem handler_cache_hit (config : Config) (ttl : Duration) (env : Env) (b : UInt8)
    (aliasName : GoString) (c : Cache) (entry : CacheEntry) (hne : aliasName ≠ [])
    (hreg : aliasName ∈ config.Mappings.keys)
    (hfound : c.entries.lookup aliasName = some entry)
    (hfresh : Since env.nowGet entry.Timestamp < ttl) :
    handler config ttl env (b :: aliasName) c =
      some ⟨.Write (ascii "text/calendar") entry.Data, c, []⟩ ∧
    (Response.Write (ascii "text/calendar") entry.Data).status = 200 := by
  obtain ⟨url, hurl⟩ := lookup_of_mem_keys config.Mappings aliasName hreg
  exact ⟨handler_of_hit config ttl env b aliasName url c entry hne hurl hfound hfresh, rfl⟩

/-- A request for `/team` half a second after the entry was stored, on a network that fails. -/
theorem handler_cache_hit_witness :
    team ≠ [] ∧ team ∈ teamConfig.Mappings.keys ∧
    (teamCache [66, 49]).entries.lookup team = some ⟨[66, 49], 0⟩ ∧
    Since 500000000 0 < Second ∧
    handler teamConfig Second ⟨fun _ => .failed, 500000000, 500000000⟩ (47 :: team)
        (teamCache [66, 49]) =
      some ⟨.Write (ascii "text/calendar") [66, 49], teamCache [66, 49], []⟩ :=
  ⟨by decide, by decide, by decide, by decide,
    (handler_cache_hit teamConfig Second ⟨fun _ => .failed, 500000000, 500000000⟩ 47 team
      (teamCache [66, 49]) ⟨[66, 49], 0⟩ (by decide) (by decide) (by decide) (by decide)).1⟩

/-- C3, as the code has it: for an alias that is not empty and is a key of the registry,
when the cache has no entry for it or an entry whose age is at least the TTL, the handler
calls `fetchCalendar` exactly once, with the URL the registry maps the alias to, whether the
fetch succeeds or fails; when it succeeds with bytes `data`, the handler writes `data` with
`Content-Type: text/calendar` and status 200, and the cache afterwards maps the alias to
`data` with the clock reading of the `Set` call, in place of any old entry, every other
alias being as it was. The scenario of the specification (TTL one second, requests at 0 s,
0.5 s and 1.5 s) follows. -/
theorem handler_cache_miss_fetch_ok :
    (∀ (config : Config) (ttl : Duration) (env : Env) (b : UInt8) (aliasName url : GoString)
      (c : Cache),
      aliasName ≠ [] →
      config.Mappings.lookup aliasName = some url →
      (c.entries.lookup aliasName = none ∨
        ∃ entry, c.entries.lookup aliasName = some entry ∧
          ttl ≤ Since env.nowGet entry.Timestamp) →
      ∃ o, handler config ttl env (b :: aliasName) c = some o ∧ o.fetched = [url]) ∧
    (∀ (config : Config) (ttl : Duration) (env : Env) (b : UInt8) (aliasName url : GoString)
      (c : Cache) (data : Bytes),
      aliasName ≠ [] →
      config.Mappings.lookup aliasName = some url →
      (c.entries.lookup aliasName = none ∨
        ∃ entry, c.entries.lookup aliasName = some entry ∧
          ttl ≤ Since env.nowGet entry.Timestamp) →
      fetchCalendar env.httpGet url = .ok data →
      handler config ttl env (b :: aliasName) c =
        some ⟨.Write (ascii "text/calendar") data, c.Set env.nowSet aliasName data, [url]⟩ ∧
      (Response.Write (ascii "text/calendar") data).status = 200 ∧
      (c.Set env.nowSet aliasName data).entries.lookup aliasName = some ⟨data, env.nowSet⟩ ∧
      ∀ other, other ≠ aliasName →
        (c.Set env.nowSet aliasName data).entries.lookup other = c.entries.lookup other) ∧
    (∀ (B1 B2 : Bytes),
      handler teamConfig Second ⟨upstreamOK B1, 0, 0⟩ (ascii "/team") cache =
        some ⟨.Write (ascii "text/calendar") B1, teamCache B1, [teamURL]⟩ ∧
      (∀ (httpGet : GoString → HttpResult) (nowSet : Time),
        handler teamConfig Second ⟨httpGet, 500000000, nowSet⟩ (ascii "/team") (teamCache B1) =
          some ⟨.Write (ascii "text/calendar") B1, teamCache B1, []⟩) ∧
      handler teamConfig Second ⟨upstreamOK B2, 1500000000, 1500000000⟩ (ascii "/team")
          (teamCache B1) =
        some ⟨.Write (ascii "text/calendar") B2, (teamCache B1).Set 1500000000 team B2,
          [teamURL]⟩ ∧
      ((teamCache B1).Set 1500000000 team B2).entries.lookup team =
        some ⟨B2, 1500000000⟩) := by
  have general : ∀ (config : Config) (ttl : Duration) (env : Env) (b : UInt8)
      (aliasName url : GoString) (c : Cache) (data : Bytes),
      aliasName ≠ [] →
      config.Mappings.lookup aliasName = some url →
      (c.entries.lookup aliasName = none ∨
        ∃ entry, c.entries.lookup aliasName = some entry ∧
          ttl ≤ Since env.nowGet entry.Timestamp) →
      fetchCalendar env.httpGet url = .ok data →
      handler config ttl env (b :: aliasName) c =
        some ⟨.Write (ascii "text/calendar") data, c.Set env.nowSet aliasName data, [url]⟩ := by
    intro config ttl env b aliasName url c data hne hreg hmiss hfetch
    rw [handler_of_miss config ttl env b aliasName url c hne hreg
      (Get_of_miss c ttl env.nowGet aliasName hmiss), hfetch]
  have hteam : team ≠ [] := by decide
  have hhalf : Since 500000000 0 < Second := by decide
  have hlate : Second ≤ Since 1500000000 0 := by decide
  have hurl : teamURL ≠ [] := by decide
  have hreg : teamConfig.Mappings.lookup team = some teamURL := by decide
  refine ⟨?_, ?_, ?_⟩
  · intro config ttl env b aliasName url c hne hreg hmiss
    rw [handler_of_miss config ttl env b aliasName url c hne hreg
      (Get_of_miss c ttl env.nowGet aliasName hmiss)]
    cases fetchCalendar env.httpGet url with
    | error err => exact ⟨_, rfl, rfl⟩
    | ok data => exact ⟨_, rfl, rfl⟩
  · intro config ttl env b aliasName url c data hne hreg hmiss hfetch
    exact ⟨general config ttl env b aliasName url c data hne hreg hmiss hfetch, rfl,
      lookup_Set_self c env.nowSet aliasName data,
      fun other hother => lookup_Set_other c env.nowSet aliasName other data hother⟩
  · intro B1 B2
    have hstored : (teamCache B1).entries.lookup team = some ⟨B1, 0⟩ :=
      lookup_Set_self cache 0 team B1
    refine ⟨?_, ?_, ?_, ?_⟩
    · rw [ascii_slash_team]
      exact general teamConfig Second ⟨upstreamOK B1, 0, 0⟩ 47 team teamURL cache B1 hteam hreg
        (Or.inl (by decide)) (fetchCalendar_upstreamOK B1 teamURL hurl)
    · intro httpGet nowSet
      rw [ascii_slash_team]
      exact handler_of_hit teamConfig Second ⟨httpGet, 500000000, nowSet⟩ 47 team teamURL
        (teamCache B1) ⟨B1, 0⟩ hteam hreg hstored hhalf
    · rw [ascii_slash_team]
      exact general teamConfig Second ⟨upstreamOK B2, 1500000000, 1500000000⟩ 47 team teamURL
        (teamCache B1) B2 hteam hreg (Or.inr ⟨⟨B1, 0⟩, hstored, hlate⟩)
        (fetchCalendar_upstreamOK B2 teamURL hurl)
    · exact lookup_Set_self (teamCache B1) 1500000000 team B2

/-- The first request for `/team` after startup: one fetch, its bytes in the response and in
the cache; and one fetch as well when the upstream answers 503. -/
theorem handler_cache_miss_fetch_ok_witness :
    team ≠ [] ∧ teamConfig.Mappings.lookup team = some teamURL ∧
    cache.entries.lookup team = none ∧
    fetchCalendar (upstreamOK [66, 49]) teamURL = .ok [66, 49] ∧
    handler teamConfig Second ⟨upstreamOK [66, 49], 0, 0⟩ (47 :: team) cache =
      some ⟨.Write (ascii "text/calendar") [66, 49], cache.Set 0 team [66, 49], [teamURL]⟩ ∧
    (∃ o, handler teamConfig Second ⟨upstreamStatus 503, 0, 0⟩ (47 :: team) cache = some o ∧
      o.fetched = [teamURL]) :=
  ⟨by decide, by decide, by decide, by rfl,
    (handler_cache_miss_fetch_ok.2.1 teamConfig Second ⟨upstreamOK [66, 49], 0, 0⟩ 47 team
      teamURL cache [66, 49] (by decide) (by decide) (Or.inl (by decide)) (by rfl)).1,
    handler_cache_miss_fetch_ok.1 teamConfig Second ⟨upstreamStatus 503, 0, 0⟩ 47 team
      teamURL cache (by decide) (by decide) (Or.inl (by decide))⟩

/-- C3 as stated fails for the empty alias: with the registry `{"": url}`, an empty cache and
an upstream that would answer 200, the request `GET /` has the alias `""`, which is
registered and misses the cache, yet the handler answers 400 `"Missing alias"` without a
call of `fetchCalendar` and stores nothing. -/
theorem handler_registered_empty_alias_not_fetched :
    sliceFrom (ascii "/") 1 = some [] ∧
    emptyAliasConfig.Mappings.lookup [] = some teamURL ∧
    cache.entries.lookup [] = none ∧
    fetchCalendar (upstreamOK [66, 49]) teamURL = .ok [66, 49] ∧
    handler emptyAliasConfig Second ⟨upstreamOK [66, 49], 0, 0⟩ (ascii "/") cache =
      some ⟨.Error (ascii "Missing alias") 400, cache, []⟩ ∧
    (Response.Error (ascii "Missing alias") 400).status ≠ 200 :=
  ⟨by decide, by decide, by decide, by rfl, by rfl, by decide⟩

/-- C4, as the code has it: for an alias that is not empty and is a key of the registry, on
a cache miss, when
the fetch fails (empty URL, failing `http.Get`, a status other than 200, a body that cannot
be read): the handler answers `http.Error` with `"Failed to fetch calendar"` and status 500,
whatever the kind of failure, after one call of `fetchCalendar`, and the cache is what it
was before the request. -/
theorem handler_fetch_failure (config : Config) (ttl : Duration) (env : Env) (b : UInt8)
    (aliasName url : GoString) (c : Cache) (hne : aliasName ≠ [])
    (hreg : config.Mappings.lookup aliasName = some url)
    (hmiss : c.entries.lookup aliasName = none ∨
      ∃ entry, c.entries.lookup aliasName = some entry ∧
        ttl ≤ Since env.nowGet entry.Timestamp)
    (hfail : url = [] ∨ env.httpGet url = .failed ∨
      (∃ StatusCode body, env.httpGet url = .response StatusCode body ∧ StatusCode ≠ 200) ∨
      env.httpGet url = .response 200 none) :
    handler config ttl env (b :: aliasName) c =
      some ⟨.Error (ascii "Failed to fetch calendar") 500, c, [url]⟩ ∧
    (Response.Error (ascii "Failed to fetch calendar") 500).status = 500 := by
  obtain ⟨err, herr⟩ := (fetchCalendar_error_iff env.httpGet url).mpr hfail
  refine ⟨?_, rfl⟩
  rw [handler_of_miss config ttl env b aliasName url c hne hreg
    (Get_of_miss c ttl env.nowGet aliasName hmiss), herr]

/-- The upstream answers 503 for `"team"` on a cache miss: status 500, nothing cached. -/
theorem handler_fetch_failure_witness :
    team ≠ [] ∧ teamConfig.Mappings.lookup team = some teamURL ∧
    cache.entries.lookup team = none ∧
    upstreamStatus 503 teamURL = .response 503 (some []) ∧
    handler teamConfig Second ⟨upstreamStatus 503, 0, 0⟩ (47 :: team) cache =
      some ⟨.Error (ascii "Failed to fetch calendar") 500, cache, [teamURL]⟩ :=
  ⟨by decide, by decide, by decide, rfl,
    (handler_fetch_failure teamConfig Second ⟨upstreamStatus 503, 0, 0⟩ 47 team teamURL cache
      (by decide) (by decide) (Or.inl (by decide))
      (Or.inr (Or.inr (Or.inl ⟨503, some [], rfl, by decide⟩)))).1⟩

/-- C4 as stated fails for the empty alias: with the registry `{"": url}`, an empty cache and
an upstream that answers 503, the request `GET /` has the alias `""`, which is registered
and misses the cache, and its fetch would fail, yet the handler answers 400
`"Missing alias"`, not 500, without a call of `fetchCalendar`. -/
theorem handler_registered_empty_alias_not_500 :
    sliceFrom (ascii "/") 1 = some [] ∧
    emptyAliasConfig.Mappings.lookup [] = some teamURL ∧
    cache.entries.lookup [] = none ∧
    fetchCalendar (upstreamStatus 503) teamURL = .error (.status 503) ∧
    handler emptyAliasConfig Second ⟨upstreamStatus 503, 0, 0⟩ (ascii "/") cache =
      some ⟨.Error (ascii "Missing alias") 400, cache, []⟩ ∧
    (Response.Error (ascii "Missing alias") 400).status ≠ 500 :=
  ⟨by decide, by decide, by decide, by rfl, by rfl, by decide⟩

/-- C5: for an alias that is not empty and is not a key of the registry, whatever the cache
holds, the handler answers `http.Error` with `"Not found"` and status 404, does not call
`fetchCalendar`, and leaves the cache as it was. -/
theorem handler_unknown_alias (config : Config) (ttl : Duration) (env : Env) (b : UInt8)
    (aliasName : GoString) (c : Cache) (hne : aliasName ≠ [])
    (hunknown : aliasName ∉ config.Mappings.keys) :
    handler config ttl env (b :: aliasName) c =
      some ⟨.Error (ascii "Not found") 404, c, []⟩ ∧
    (Response.Error (ascii "Not found") 404).status = 404 := by
  have hreg : config.Mappings.lookup aliasName = none := AList.lookup_eq_none.mpr hunknown
  refine ⟨?_, rfl⟩
  simp only [handler, sliceFrom_one_cons, hne, if_false, hreg]

/-- The request `GET /unknown` while the cache holds a fresh entry under `"unknown"`. -/
theorem handler_unknown_alias_witness :
    unknown ≠ [] ∧ unknown ∉ teamConfig.Mappings.keys ∧
    (cache.Set 0 unknown [9]).entries.lookup unknown = some ⟨[9], 0⟩ ∧
    handler teamConfig Second ⟨upstreamOK [1], 0, 0⟩ (47 :: unknown) (cache.Set 0 unknown [9]) =
      some ⟨.Error (ascii "Not found") 404, cache.Set 0 unknown [9], []⟩ :=
  ⟨by decide, by decide, by decide,
    (handler_unknown_alias teamConfig Second ⟨upstreamOK [1], 0, 0⟩ 47 unknown
      (cache.Set 0 unknown [9]) (by decide) (by decide)).1⟩

/-- C6: for the root path `"/"` the handler answers `http.Error` with `"Missing alias"` and
status 400 for every registry, TTL, cache and network; it does not call `fetchCalendar` and
leaves the cache as it was. -/
theorem handler_root_path (config : Config) (ttl : Duration) (env : Env) (c : Cache) :
    handler config ttl env (ascii "/") c =
      some ⟨.Error (ascii "Missing alias") 400, c, []⟩ ∧
    (Response.Error (ascii "Missing alias") 400).status = 400 := by
  refine ⟨?_, rfl⟩
  rw [ascii_slash]
  simp only [handler, sliceFrom_one_cons, if_true]

/-- C9, as the code has it: for every request path that is not empty, whether or not it
begins with `"/"`, the slice `Path[1:]` is defined and is the path without its first byte
(the leading separator of a path that begins with `"/"`), and the handler ends with one of
the statuses 200, 400, 404 and 500. -/
theorem handler_nonempty_path (config : Config) (ttl : Duration) (env : Env)
    (Path : GoString) (c : Cache) (hlen : 1 ≤ Path.length) :
    sliceFrom Path 1 = some (Path.drop 1) ∧
    (∀ rest, Path = ascii "/" ++ rest → sliceFrom Path 1 = some rest) ∧
    ∃ o, handler config ttl env Path c = some o ∧
      (o.resp.status = 200 ∨ o.resp.status = 400 ∨ o.resp.status = 404 ∨
        o.resp.status = 500) := by
  cases Path with
  | nil => simp at hlen
  | cons b aliasName =>
    refine ⟨sliceFrom_one_cons b aliasName, ?_, ?_⟩
    · intro rest hrest
      rw [ascii_slash] at hrest
      rw [hrest]
      exact sliceFrom_one_cons 47 rest
    · rcases handler_cons_cases config ttl env b aliasName c with
        ⟨_, h⟩ | ⟨_, _, h⟩ | ⟨_, _, _, _, h⟩ | ⟨_, _, _, _, h⟩ | ⟨_, _, _, _, _, h⟩
      · exact ⟨_, h, Or.inr (Or.inl rfl)⟩
      · exact ⟨_, h, Or.inr (Or.inr (Or.inl rfl))⟩
      · exact ⟨_, h, Or.inl rfl⟩
      · exact ⟨_, h, Or.inr (Or.inr (Or.inr rfl))⟩
      · exact ⟨_, h, Or.inl rfl⟩

/-- The path `"team"`, which does not begin with `"/"`: the alias is `"eam"`, the status 404. -/
theorem handler_nonempty_path_witness :
    1 ≤ team.length ∧ sliceFrom team 1 = some (ascii "eam") ∧
    ∃ o, handler teamConfig Second ⟨upstreamOK [1], 0, 0⟩ team cache = some o ∧
      (o.resp.status = 200 ∨ o.resp.status = 400 ∨ o.resp.status = 404 ∨
        o.resp.status = 500) :=
  ⟨by decide, by decide,
    (handler_nonempty_path teamConfig Second ⟨upstreamOK [1], 0, 0⟩ team cache
      (by decide)).2.2⟩

/-- C9 as stated fails on the empty path: the slice `Path[1:]` panics, the handler produces
no response. -/
theorem handler_empty_path_panics :
    sliceFrom (ascii "") 1 = none ∧
    handler teamConfig Second ⟨upstreamOK [1], 0, 0⟩ (ascii "") cache = none := by
  constructor <;> decide

/-- C10: after any sequence of requests handled from the empty cache, every key of the
cache is a non-empty alias that is a key of the registry, the cache has at most as many
entries as the registry, and every entry holds the bytes of a successful fetch of the URL
registered for its alias, made by one of the requests for that alias. -/
theorem cache_keys_registered (config : Config) (ttl : Duration) (rs : List Request) :
    (∀ a ∈ (serveAll config ttl cache rs).entries.keys,
      a ≠ [] ∧ a ∈ config.Mappings.keys) ∧
    (serveAll config ttl cache rs).entries.keys.length ≤ config.Mappings.keys.length ∧
    (∀ a entry, (serveAll config ttl cache rs).entries.lookup a = some entry →
      ∃ url, config.Mappings.lookup a = some url ∧
        ∃ r ∈ rs, sliceFrom r.Path 1 = some a ∧
          fetchCalendar r.env.httpGet url = .ok entry.Data ∧
          entry.Timestamp = r.env.nowSet) := by
  have hkeys : ∀ a ∈ (serveAll config ttl cache rs).entries.keys,
      a ≠ [] ∧ a ∈ config.Mappings.keys := by
    intro a ha
    obtain ⟨entry, hentry⟩ := lookup_of_mem_keys _ a ha
    obtain ⟨hne, url, hreg, _⟩ := serveAll_entries config ttl rs a entry hentry
    exact ⟨hne, mem_keys_of_lookup config.Mappings a url hreg⟩
  refine ⟨hkeys, ?_, ?_⟩
  · exact (List.subperm_of_subset (serveAll config ttl cache rs).entries.keys_nodup
      (fun a ha => (hkeys a ha).2)).length_le
  · intro a entry hentry
    exact (serveAll_entries config ttl rs a entry hentry).2

/-- After `/team`, `/unknown`, the empty path and `/`, the cache holds `"team"` alone, with
the bytes that the first request fetched. -/
theorem cache_keys_registered_witness :
    team ∈ (serveAll teamConfig Second cache exampleRequests).entries.keys ∧
    (team ≠ [] ∧ team ∈ teamConfig.Mappings.keys) ∧
    (serveAll teamConfig Second cache exampleRequests).entries.keys = [team] ∧
    (serveAll teamConfig Second cache exampleRequests).entries.lookup team =
      some ⟨[66, 49], 0⟩ ∧
    (∃ url, teamConfig.Mappings.lookup team = some url ∧
      ∃ r ∈ exampleRequests, sliceFrom r.Path 1 = some team ∧
        fetchCalendar r.env.httpGet url = .ok [66, 49] ∧ (0 : Time) = r.env.nowSet) :=
  ⟨by decide,
    (cache_keys_registered teamConfig Second exampleRequests).1 team (by decide),
    by decide, by decide,
    (cache_keys_registered teamConfig Second exampleRequests).2.2 team ⟨[66, 49], 0⟩
      (by decide)⟩

end ICalProxy
